import Mathlib

/-!
Verification of the shackleton-scraper (`src/main.py`) against its
natural-language specification.

The embedding below translates `main.py` into Lean.  HTTP transport and
the BeautifulSoup document model are external collaborators of the
program; a fetched response is therefore modelled as a record carrying
the success flag consulted by `raise_for_status`, the raw body text
consulted by `check_valid`, and the parsed document abstracted to the
exact queries `main.py` makes of it (anchor elements with text and href,
and `webcam_image` containers with their first `img` src and `h2` text).
Python exceptions are modelled by an explicit error type that records
the exception class, since `walk` catches `ValueError` and only
`ValueError`.
-/

/-- A Python `datetime.datetime` value (naive, microseconds unused). -/
structure DateTime where
  year : Nat
  month : Nat
  day : Nat
  hour : Nat
  minute : Nat
  second : Nat
deriving DecidableEq, Repr

/-- An `<a>` element as seen by the scraper: visible text and href attribute. -/
structure Anchor where
  text : String
  href : String
deriving DecidableEq, Repr

/-- A `class="webcam_image"` element: the `src` of its first `<img>` child
(if any) and the text of its first `<h2>` child (if any). -/
structure WebcamDiv where
  imgSrc : Option String
  h2Text : Option String
deriving DecidableEq, Repr

/-- The parsed document (BeautifulSoup) abstracted to the queries made by
`main.py`: `find_all('a')` and the `webcam_image` containers. -/
structure Doc where
  anchors : List Anchor
  webcamDivs : List WebcamDiv
deriving DecidableEq, Repr

/-- An HTTP response: `response.ok` (what `raise_for_status` consults),
`response.text`, and the document BeautifulSoup would produce from it. -/
structure HttpResponse where
  statusOk : Bool
  bodyText : String
  doc : Doc

/-- A simulated archive: what the server returns for each URL. -/
abbrev Archive := String → HttpResponse

/-- The Python exception classes that can arise in one walk step.
`requests.HTTPError` subclasses `OSError`, not `ValueError`;
`IndexError` and `AttributeError` are likewise not `ValueError`s.
The two `ValueError` sites are distinguished so theorems can talk about
which one ended a walk. -/
inductive PyError where
  | valueErrorSentinel
  | valueErrorParse
  | valueErrorAdjust
  | httpError
  | indexError
  | attributeError
deriving DecidableEq, Repr

/-- Whether the exception is (a subclass of) `ValueError`, the only class
caught by `walk`'s `except ValueError` clause. -/
def PyError.isValueError : PyError → Bool
  | .valueErrorSentinel => true
  | .valueErrorParse => true
  | .valueErrorAdjust => true
  | _ => false

/-! ## String helpers -/

/-- Numeric value of a digit character. -/
def charVal (c : Char) : Nat := c.toNat - 48

/-- Two-digit zero-padded decimal rendering (as `'%02d'`), for `n < 100`. -/
def pad2 (n : Nat) : List Char := [Nat.digitChar (n / 10), Nat.digitChar (n % 10)]

/-- Four-digit zero-padded decimal rendering (as `'%04d'`), for `n < 10000`. -/
def pad4 (n : Nat) : List Char :=
  [Nat.digitChar (n / 1000), Nat.digitChar (n / 100 % 10),
   Nat.digitChar (n / 10 % 10), Nat.digitChar (n % 10)]

/-- Whether `needle` occurs as a contiguous sublist of the second list. -/
def listInfix (needle : List Char) : List Char → Bool
  | [] => needle.isEmpty
  | c :: t => needle.isPrefixOf (c :: t) || listInfix needle t

/-- Python's `needle in hay` substring test. -/
def strContains (hay needle : String) : Bool := listInfix needle.toList hay.toList

/-- Value of a digit string read left to right (what `int(s)` computes on
a string of digits). -/
def natOfDigits (cs : List Char) : Nat := cs.foldl (fun n c => n * 10 + charVal c) 0

/-! ## The `strptime` model

`parse_datetime` calls `datetime.strptime(s, '%B %d, %Y at %H:%M')`.
CPython's `_strptime` lower-cases the input and matches it against a
regex built from the format: `%B` is an alternation of the locale's
month names (no en_US month name is a prefix of another, so trial order
is irrelevant), a literal space matches one-or-more whitespace,
`%d` is `(3[01]|[12]\d|0[1-9]|[1-9])`, `%Y` is four digits,
`%H` is `(2[0-3]|[0-1]\d|\d)`, `%M` is `([0-5]\d|\d)`; the whole input
must be consumed, and the final `datetime(...)` construction additionally
requires `MINYEAR <= year` and the day to fit the month. -/

/-- Lower-case en_US month names, with their month numbers. -/
def monthNames : List (Nat × List Char) :=
  [(1, ['j', 'a', 'n', 'u', 'a', 'r', 'y']),
   (2, ['f', 'e', 'b', 'r', 'u', 'a', 'r', 'y']),
   (3, ['m', 'a', 'r', 'c', 'h']),
   (4, ['a', 'p', 'r', 'i', 'l']),
   (5, ['m', 'a', 'y']),
   (6, ['j', 'u', 'n', 'e']),
   (7, ['j', 'u', 'l', 'y']),
   (8, ['a', 'u', 'g', 'u', 's', 't']),
   (9, ['s', 'e', 'p', 't', 'e', 'm', 'b', 'e', 'r']),
   (10, ['o', 'c', 't', 'o', 'b', 'e', 'r']),
   (11, ['n', 'o', 'v', 'e', 'm', 'b', 'e', 'r']),
   (12, ['d', 'e', 'c', 'e', 'm', 'b', 'e', 'r'])]

/-- The lower-case name of month `m`, as a character list. -/
def monthLower (m : Nat) : List Char :=
  match m with
  | 1 => ['j', 'a', 'n', 'u', 'a', 'r', 'y']
  | 2 => ['f', 'e', 'b', 'r', 'u', 'a', 'r', 'y']
  | 3 => ['m', 'a', 'r', 'c', 'h']
  | 4 => ['a', 'p', 'r', 'i', 'l']
  | 5 => ['m', 'a', 'y']
  | 6 => ['j', 'u', 'n', 'e']
  | 7 => ['j', 'u', 'l', 'y']
  | 8 => ['a', 'u', 'g', 'u', 's', 't']
  | 9 => ['s', 'e', 'p', 't', 'e', 'm', 'b', 'e', 'r']
  | 10 => ['o', 'c', 't', 'o', 'b', 'e', 'r']
  | 11 => ['n', 'o', 'v', 'e', 'm', 'b', 'e', 'r']
  | 12 => ['d', 'e', 'c', 'e', 'm', 'b', 'e', 'r']
  | _ => []

/-- Match a literal character sequence at the head of the input,
returning the remainder. -/
def matchLit : List Char → List Char → Option (List Char)
  | [], cs => some cs
  | _ :: _, [] => none
  | l :: ls, c :: cs => if l == c then matchLit ls cs else none

/-- Try each month name in turn at the head of the input (the names are
mutually prefix-free, so trial order does not matter). -/
def tryMonths : List (Nat × List Char) → List Char → Option (Nat × List Char)
  | [], _ => none
  | (m, name) :: rest, cs =>
    match matchLit name cs with
    | some cs2 => some (m, cs2)
    | none => tryMonths rest cs

/-- Match one month name at the head of the input. -/
def parseMonthName (cs : List Char) : Option (Nat × List Char) :=
  tryMonths monthNames cs

/-- Drop leading whitespace. -/
def skipWs : List Char → List Char
  | [] => []
  | c :: t => if c.isWhitespace then skipWs t else c :: t

/-- Require and consume one-or-more whitespace characters (`\s+`). -/
def skipWs1 : List Char → Option (List Char)
  | [] => none
  | c :: t => if c.isWhitespace then some (skipWs t) else none

/-- A one-or-two digit numeric field: the two-digit alternatives accept the
range `[twoLo, twoHi]`, the single-digit fallback accepts a first digit of
value at least `oneLo` (regex alternation: two-digit forms are tried
before the single-digit form). -/
def parseNumField (twoLo twoHi oneLo : Nat) (cs : List Char) : Option (Nat × List Char) :=
  match cs with
  | c1 :: c2 :: rest =>
    if c1.isDigit then
      if c2.isDigit then
        let v := charVal c1 * 10 + charVal c2
        if twoLo ≤ v ∧ v ≤ twoHi then some (v, rest)
        else if oneLo ≤ charVal c1 then some (charVal c1, c2 :: rest)
        else none
      else if oneLo ≤ charVal c1 then some (charVal c1, c2 :: rest)
      else none
    else none
  | [c1] => if c1.isDigit ∧ oneLo ≤ charVal c1 then some (charVal c1, []) else none
  | [] => none

/-- Exactly four digits (`%Y`). -/
def parseYear4 (cs : List Char) : Option (Nat × List Char) :=
  match cs with
  | c1 :: c2 :: c3 :: c4 :: rest =>
    if c1.isDigit ∧ c2.isDigit ∧ c3.isDigit ∧ c4.isDigit then
      some (((charVal c1 * 10 + charVal c2) * 10 + charVal c3) * 10 + charVal c4, rest)
    else none
  | _ => none

/-- Gregorian leap year, as `calendar.isleap`. -/
def isLeap (y : Nat) : Bool := y % 4 == 0 && (y % 100 != 0 || y % 400 == 0)

/-- Days in a month, as `calendar.monthrange` / `datetime`'s day check. -/
def daysInMonth (y m : Nat) : Nat :=
  if m = 2 then (if isLeap y then 29 else 28)
  else if m = 4 ∨ m = 6 ∨ m = 9 ∨ m = 11 then 30
  else 31

/-- The `%H:%M` tail of the format, then the full-consumption and
`datetime(...)` range checks. -/
def parseHM (m y d : Nat) (cs : List Char) : Option DateTime :=
  match parseNumField 0 23 0 cs with
  | none => none
  | some (h, cs10) =>
    match matchLit [':'] cs10 with
    | none => none
    | some cs11 =>
      match parseNumField 0 59 0 cs11 with
      | none => none
      | some (mi, cs12) =>
        if cs12 = [] ∧ 1 ≤ y ∧ d ≤ daysInMonth y m then
          some ⟨y, m, d, h, mi, 0⟩
        else none

/-- The `%Y at ` middle of the format. -/
def parseYearAt (m d : Nat) (cs : List Char) : Option DateTime :=
  match parseYear4 cs with
  | none => none
  | some (y, cs6) =>
    match skipWs1 cs6 with
    | none => none
    | some cs7 =>
      match matchLit ['a', 't'] cs7 with
      | none => none
      | some cs8 =>
        match skipWs1 cs8 with
        | none => none
        | some cs9 => parseHM m y d cs9

/-- The ` %d, ` part of the format after the month name. -/
def parseDayPart (m : Nat) (cs : List Char) : Option DateTime :=
  match skipWs1 cs with
  | none => none
  | some cs2 =>
    match parseNumField 1 31 1 cs2 with
    | none => none
    | some (d, cs3) =>
      match matchLit [','] cs3 with
      | none => none
      | some cs4 =>
        match skipWs1 cs4 with
        | none => none
        | some cs5 => parseYearAt m d cs5

/-- `datetime.strptime(s, '%B %d, %Y at %H:%M')`; `none` models the
`ValueError` strptime raises on a non-matching string. Seconds default
to zero since the format has no seconds directive. -/
def parse_datetime (s : String) : Option DateTime :=
  match parseMonthName (s.toList.map Char.toLower) with
  | none => none
  | some (m, cs1) => parseDayPart m cs1

/-! ## The source constants and functions of `main.py` -/

def BASE_URL : String := "https://legacy.bas.ac.uk/webcams/archive/cam.php"

def START_URL : String := BASE_URL ++ "?cam=1&position=7"

def ERROR_MSG : String := "We are currently only displaying a 30 day archive."

/-- The `[0-9]{2}:[0-9]{2}:[0-9]{2}` body of `TIME_RE`. -/
def timeChars (a b c d e f g h : Char) : Bool :=
  a.isDigit && b.isDigit && c == ':' && d.isDigit && e.isDigit && f == ':' &&
    g.isDigit && h.isDigit

/-- `TIME_RE = re.compile('^[0-9]{2}:[0-9]{2}:[0-9]{2}$')`; whether
`TIME_RE.findall(text)` is non-empty.  Without `re.MULTILINE`, `$` also
matches just before one trailing newline, so `HH:MM:SS` followed by a
single `\n` is a match too. -/
def isTimeLabel (s : String) : Bool :=
  match s.toList with
  | [a, b, c, d, e, f, g, h] => timeChars a b c d e f g h
  | [a, b, c, d, e, f, g, h, nl] => nl == '\n' && timeChars a b c d e f g h
  | _ => false

/-- `check_valid`: `ERROR_MSG not in html`. -/
def check_valid (html : String) : Bool := ! strContains html ERROR_MSG

/-- `get_html`: fetch, `raise_for_status` (an `HTTPError`, not a
`ValueError`), then the sentinel check, which raises
`ValueError('Not a valid html page')` when the marker is in the body. -/
def get_html (archive : Archive) (url : String) : Except PyError Doc :=
  let r := archive url
  if r.statusOk then
    if check_valid r.bodyText then .ok r.doc
    else .error .valueErrorSentinel
  else .error .httpError

/-- `get_image`: `find_all(class_='webcam_image')[0].find('img').attrs['src']`.
An empty result list raises `IndexError`; a missing `<img>` raises
`AttributeError` (`None.attrs`). -/
def get_image (doc : Doc) : Except PyError String :=
  match doc.webcamDivs with
  | [] => .error .indexError
  | d :: _ =>
    match d.imgSrc with
    | none => .error .attributeError
    | some s => .ok s

/-- The anchors whose text matches `TIME_RE`, in page order. -/
def timeAnchors (doc : Doc) : List Anchor := doc.anchors.filter (fun a => isTimeLabel a.text)

/-- One `d[k] = v` step of building a Python dict: an existing key keeps
its position and gets the new value; a new key is appended. -/
def dictInsert (l : List (String × String)) (k v : String) : List (String × String) :=
  if l.any (fun p => p.1 == k) then
    l.map (fun p => if p.1 == k then (p.1, v) else p)
  else l ++ [(k, v)]

/-- `get_time_links`: the dict comprehension
`{link.text: link.attrs['href'] for link in soup.find_all('a') if TIME_RE.findall(link.text)}`,
as an ordered association list with Python-dict insertion semantics. -/
def get_time_links (doc : Doc) : List (String × String) :=
  (timeAnchors doc).foldl (fun acc a => dictInsert acc a.text a.href) []

/-- The hrefs of the anchors whose text is exactly `'Previous Day'`, in
page order. -/
def prevHrefs (doc : Doc) : List String :=
  (doc.anchors.filter (fun a => a.text == "Previous Day")).map Anchor.href

/-- `get_prev_link`: hrefs of anchors whose text is exactly
`'Previous Day'`, indexed at `[0]` (raising `IndexError` when absent). -/
def get_prev_link (doc : Doc) : Except PyError String :=
  match prevHrefs doc with
  | [] => .error .indexError
  | h :: _ => .ok h

/-- `get_datetime`: `soup.find(class_='webcam_image').find('h2')` then
`parse_datetime(title.text)`.  A missing container or heading raises
`AttributeError`; a malformed date string raises strptime's `ValueError`. -/
def get_datetime (doc : Doc) : Except PyError DateTime :=
  match doc.webcamDivs with
  | [] => .error .attributeError
  | d :: _ =>
    match d.h2Text with
    | none => .error .attributeError
    | some t =>
      match parse_datetime t with
      | none => .error .valueErrorParse
      | some dt => .ok dt

/-- Python's `s.split(sep)` for a single-character separator. -/
def splitOnChar (sep : Char) : List Char → List (List Char)
  | [] => [[]]
  | c :: t =>
    let r := splitOnChar sep t
    if c == sep then [] :: r
    else
      match r with
      | h :: t2 => (c :: h) :: t2
      | [] => [[c]]

/-- `adjust_date`: `hh, mm, ss = new_time.split(':')` then
`dt.replace(hour=int(hh), minute=int(mm))`.  Any of these can raise a
`ValueError`: the unpack when the split does not have exactly three
parts, `int()` on a non-digit part, and — the one reachable from labels
matching `TIME_RE` — `datetime.replace` when the hour exceeds 23 or the
minute exceeds 59 (two-digit labels such as `99:00:00` pass `TIME_RE`). -/
def adjust_date (dt : DateTime) (t : String) : Except PyError DateTime :=
  match splitOnChar ':' t.toList with
  | [hh, mm, _] =>
    if hh ≠ [] ∧ hh.all Char.isDigit ∧ mm ≠ [] ∧ mm.all Char.isDigit then
      if natOfDigits hh ≤ 23 ∧ natOfDigits mm ≤ 59 then
        .ok { dt with hour := natOfDigits hh, minute := natOfDigits mm }
      else .error .valueErrorAdjust
    else .error .valueErrorAdjust
  | _ => .error .valueErrorAdjust

/-- The `for t, link in get_time_links(html).items():` loop of
`get_next_time`: each entry's label is adjusted (a `ValueError` raised
there propagates out of the loop), the first entry whose adjusted date
is not in `seen_dates` is formatted onto `BASE_URL`, and `None` results
when every entry is seen. -/
def nextTimeLoop (dt : DateTime) (seen : List DateTime) :
    List (String × String) → Except PyError (Option String)
  | [] => .ok none
  | (t, link) :: rest =>
    match adjust_date dt t with
    | .error e => .error e
    | .ok adjusted =>
      if adjusted ∈ seen then nextTimeLoop dt seen rest
      else .ok (some (BASE_URL ++ link))

/-- `get_next_time`, including the `ValueError` its loop body can raise. -/
def get_next_time (dt : DateTime) (seen : List DateTime) (doc : Doc) :
    Except PyError (Option String) :=
  nextTimeLoop dt seen (get_time_links doc)

/-- Whether `adjust_date` succeeds on this anchor's label (its hour and
minute are in `datetime`'s ranges). -/
def adjustOk (dt : DateTime) (x : Anchor) : Bool :=
  match adjust_date dt x.text with
  | .ok _ => true
  | .error _ => false

/-- Whether this anchor's label adjusts successfully to a date NOT yet
in the seen-set: the condition under which `get_next_time`'s loop
returns this entry's URL. -/
def unseenOk (dt : DateTime) (seen : List DateTime) (x : Anchor) : Bool :=
  match adjust_date dt x.text with
  | .ok c => ! seen.contains c
  | .error _ => false

/-- Whether this anchor's label adjusts successfully to a date already
in the seen-set: the condition under which `get_next_time`'s loop skips
the entry. -/
def seenOk (dt : DateTime) (seen : List DateTime) (x : Anchor) : Bool :=
  match adjust_date dt x.text with
  | .ok c => seen.contains c
  | .error _ => false

/-! ## The walker -/

deriving instance DecidableEq for Except

/-- What one iteration of `walk`'s loop body does, up to and including the
computation of the next URL: it either raises before reaching `yield`, or
yields a pair and then computes the next URL (which itself can raise, on
the consumer's next pull). -/
inductive StepResult where
  | terminated (e : PyError)
  | stepped (dt : DateTime) (img : String) (next : Except PyError String)
deriving DecidableEq, Repr

/-- `_url = get_next_time(...)` followed by
`if _url is None: _url = '{0}{1}'.format(BASE_URL, get_prev_link(html))`. -/
def nextUrl (dt : DateTime) (seen1 : List DateTime) (doc : Doc) : Except PyError String :=
  match get_next_time dt seen1 doc with
  | .error e => .error e
  | .ok (some u) => .ok u
  | .ok none =>
    match get_prev_link doc with
    | .error e => .error e
    | .ok href => .ok (BASE_URL ++ href)

/-- One iteration of `walk`'s loop body at `url` with the current
`seen_dates`.  Order as in the source: `get_html`, `get_datetime`,
`seen_dates.append(dt)`, `get_image`, `yield`, next-URL computation
(which sees `seen ++ [dt]`). -/
def walkStep (archive : Archive) (seen : List DateTime) (url : String) : StepResult :=
  match get_html archive url with
  | .error e => .terminated e
  | .ok doc =>
    match get_datetime doc with
    | .error e => .terminated e
    | .ok dt =>
      match get_image doc with
      | .error e => .terminated e
      | .ok img => .stepped dt img (nextUrl dt (seen ++ [dt]) doc)

/-- How a run of `walk` ended.  `cleanStop e` is the `except ValueError`
arm (prints `'Done!'` and a diagnostic traceback, then `break`s: the
generator ends normally); `crashed e` is an exception escaping the
generator uncaught; `outOfFuel` means the simulation budget ran out
before the loop ended (the source loop has no step ceiling). -/
inductive WalkOutcome where
  | cleanStop (e : PyError)
  | crashed (e : PyError)
  | outOfFuel
deriving DecidableEq, Repr

/-- Whether the run ended through `walk`'s `except ValueError` clause. -/
def WalkOutcome.isCaughtStop : WalkOutcome → Bool
  | .cleanStop _ => true
  | _ => false

/-- Dispatch a raised exception against `except ValueError`. -/
def endOutcome (e : PyError) : WalkOutcome :=
  if e.isValueError then .cleanStop e else .crashed e

/-- `walk(url)` driven for at most `fuel` loop iterations: the list of
yielded `(timestamp, image URL)` pairs and how the run ended. -/
def walkRun (archive : Archive) : Nat → List DateTime → String → List (DateTime × String) × WalkOutcome
  | 0, _, _ => ([], .outOfFuel)
  | fuel + 1, seen, url =>
    match walkStep archive seen url with
    | .terminated e => ([], endOutcome e)
    | .stepped dt img (.error e) => ([(dt, img)], endOutcome e)
    | .stepped dt img (.ok u) =>
      let r := walkRun archive fuel (seen ++ [dt]) u
      ((dt, img) :: r.1, r.2)

/-- The walker's traversal path: after `n` fully successful steps from
`start`, the pairs yielded so far and the URL about to be fetched.
`none` when the path does not extend that far. -/
def traj (archive : Archive) (start : String) : Nat → Option (List (DateTime × String) × String)
  | 0 => some ([], start)
  | n + 1 =>
    match traj archive start n with
    | none => none
    | some (ys, url) =>
      match walkStep archive (ys.map Prod.fst) url with
      | .stepped dt img (.ok u) => some (ys ++ [(dt, img)], u)
      | _ => none

/-! ## The download driver (`download_image` and `main`) -/

abbrev Bytes := List Nat

/-- What the image server returns per URL; `none` models a non-success
status (`raise_for_status` in `download_image`). -/
abbrev ImageStore := String → Option Bytes

/-- One file written by the driver: `open(fp, 'wb')` truncates, so a
write replaces any existing content at that path. -/
structure WriteEvent where
  path : String
  data : Bytes
deriving DecidableEq, Repr

/-- `os.path.join(dir, name)` for a relative `name`. -/
def joinPath (dir name : String) : String :=
  if dir = "" then name
  else if dir.endsWith "/" then dir ++ name
  else dir ++ "/" ++ name

/-- `datetime.isoformat()` with zero microseconds:
`YYYY-MM-DDTHH:MM:SS`. -/
def isoformat (dt : DateTime) : String :=
  String.mk (pad4 dt.year ++ '-' :: pad2 dt.month ++ '-' :: pad2 dt.day ++
    'T' :: pad2 dt.hour ++ ':' :: pad2 dt.minute ++ ':' :: pad2 dt.second)

/-- `download_image(url, fp)`: fetch the bytes and write them to `fp`,
or raise `HTTPError` on a failed status. -/
def download_image (store : ImageStore) (url fp : String) : Except PyError WriteEvent :=
  match store url with
  | none => .error .httpError
  | some bs => .ok ⟨fp, bs⟩

/-- The body of `main`'s `for` loop over a list of yielded pairs: one
file write per pair at `output_dir/<isoformat>.jpg`, stopping at the
first failed download (whose exception ends the run). -/
def mainWrites (store : ImageStore) (outDir : String) :
    List (DateTime × String) → List WriteEvent × Option PyError
  | [] => ([], none)
  | (dt, img) :: rest =>
    match download_image store img (joinPath outDir (isoformat dt ++ ".jpg")) with
    | .error e => ([], some e)
    | .ok w =>
      let r := mainWrites store outDir rest
      (w :: r.1, r.2)

/-- `main(output_dir)`: iterate `walk(START_URL)` and download each image. -/
def mainRun (archive : Archive) (store : ImageStore) (outDir : String) (fuel : Nat) :
    List WriteEvent × Option PyError :=
  mainWrites store outDir (walkRun archive fuel [] START_URL).1

/-- Apply a list of file writes to a filesystem (paths to contents);
each write truncates/overwrites. -/
def applyWrites (fs : String → Option Bytes) (ws : List WriteEvent) : String → Option Bytes :=
  ws.foldl (fun f w => fun p => if p = w.path then some w.data else f p) fs

/-! ## Spec-side definitions

These are stated from the specification's words, for claims that compare
the code against an independently stated property (the C8 round trip and
the C10 dict-order description); they are not translations of `main.py`. -/

/-- A canonical source-format date string,
`'<Month> <0-padded day>, <year> at <HH>:<MM>'`. -/
def monthNameCap (m : Nat) : String :=
  match m with
  | 1 => "January" | 2 => "February" | 3 => "March" | 4 => "April"
  | 5 => "May" | 6 => "June" | 7 => "July" | 8 => "August"
  | 9 => "September" | 10 => "October" | 11 => "November" | 12 => "December"
  | _ => ""

/-- The character list of a canonical source-format date string. -/
def mkSourceList (y m d h mi : Nat) : List Char :=
  (monthNameCap m).toList ++ ' ' :: (pad2 d ++ ',' :: ' ' :: (pad4 y ++
    ' ' :: 'a' :: 't' :: ' ' :: (pad2 h ++ ':' :: pad2 mi)))

/-- A canonical source-format date string, e.g.
`December 12, 2017 at 23:03`. -/
def mkSourceString (y m d h mi : Nat) : String :=
  String.mk (mkSourceList y m d h mi)

/-- Exactly two digits, for reading back ISO-8601 fields. -/
def parse2 (cs : List Char) : Option (Nat × List Char) :=
  match cs with
  | c1 :: c2 :: rest =>
    if c1.isDigit ∧ c2.isDigit then some (charVal c1 * 10 + charVal c2, rest) else none
  | _ => none

/-- A `:`-separated two-digit field pair in an ISO string tail. -/
def parseIsoColon2 (cs : List Char) : Option (Nat × List Char) :=
  match matchLit [':'] cs with
  | none => none
  | some cs1 => parse2 cs1

/-- A `-`-separated two-digit field in an ISO string tail. -/
def parseIsoDash2 (cs : List Char) : Option (Nat × List Char) :=
  match matchLit ['-'] cs with
  | none => none
  | some cs1 => parse2 cs1

/-- The `THH:MM:SS` tail of an ISO string, with `datetime`'s range
checks on the already-read year, month and day. -/
def parseIsoTime (y mo d : Nat) (cs : List Char) : Option DateTime :=
  match matchLit ['T'] cs with
  | none => none
  | some cs6 =>
    match parse2 cs6 with
    | none => none
    | some (h, cs7) =>
      match parseIsoColon2 cs7 with
      | none => none
      | some (mi, cs9) =>
        match parseIsoColon2 cs9 with
        | none => none
        | some (sec, cs11) =>
          if cs11 = [] ∧ 1 ≤ y ∧ 1 ≤ mo ∧ mo ≤ 12 ∧ 1 ≤ d ∧ d ≤ daysInMonth y mo ∧
              h ≤ 23 ∧ mi ≤ 59 ∧ sec ≤ 59 then
            some ⟨y, mo, d, h, mi, sec⟩
          else none

/-- Read back a `YYYY-MM-DDTHH:MM:SS` string (as
`datetime.fromisoformat`), validating the ranges `datetime` enforces. -/
def parseIso (s : String) : Option DateTime :=
  match parseYear4 s.toList with
  | none => none
  | some (y, cs1) =>
    match parseIsoDash2 cs1 with
    | none => none
    | some (mo, cs3) =>
      match parseIsoDash2 cs3 with
      | none => none
      | some (d, cs5) => parseIsoTime y mo d cs5

/-- First-occurrence key order of a Python dict built by repeated
insertion: keys already recorded are skipped, new keys are kept in
order. -/
def firstKeysAux (seenKeys : List String) : List String → List String
  | [] => []
  | k :: t =>
    if seenKeys.contains k then firstKeysAux seenKeys t
    else k :: firstKeysAux (k :: seenKeys) t

/-- The distinct elements of a list, each at its first occurrence. -/
def firstKeys (l : List String) : List String := firstKeysAux [] l

/-- Lookup in an ordered association list. -/
def lookupStr (l : List (String × String)) (k : String) : Option String :=
  (l.find? (fun p => p.1 == k)).map Prod.snd

/-- The href of the LAST anchor in the list whose text is `k` (the tail
is searched first). -/
def lastHref (k : String) : List Anchor → Option String
  | [] => none
  | a :: t =>
    match lastHref k t with
    | some v => some v
    | none => if a.text == k then some a.href else none

/-! ## Concrete simulated archives used as witnesses and counterexamples -/

/-- The timestamp `2017-12-12 23:03`, the spec's running example. -/
def dt0 : DateTime := ⟨2017, 12, 12, 23, 3, 0⟩

/-- A document with no anchors and no webcam containers. -/
def emptyDoc : Doc := ⟨[], []⟩

/-- An archive page declaring `dt0`, with image `/img1.jpg`, no time
links, and a Previous Day link `?d1`. -/
def pageA : HttpResponse :=
  { statusOk := true, bodyText := "a",
    doc := { anchors := [⟨"Previous Day", "?d1"⟩],
             webcamDivs := [⟨some "/img1.jpg", some "December 12, 2017 at 23:03"⟩] } }

/-- A second page declaring the same timestamp `dt0` again, with image
`/img2.jpg` and a Previous Day link `?d2`. -/
def pageB : HttpResponse :=
  { statusOk := true, bodyText := "b",
    doc := { anchors := [⟨"Previous Day", "?d2"⟩],
             webcamDivs := [⟨some "/img2.jpg", some "December 12, 2017 at 23:03"⟩] } }

/-- The archive-exhausted sentinel page. -/
def pageS : HttpResponse :=
  { statusOk := true, bodyText := ERROR_MSG, doc := emptyDoc }

/-- An archive serving two distinct pages that declare the same
timestamp (the second is reached through the Previous Day link), then
the sentinel. -/
def archC1 : Archive := fun url =>
  if url = "start" then pageA else if url = BASE_URL ++ "?d1" then pageB else pageS

/-- An archive whose every fetch has a failure HTTP status. -/
def archC4 : Archive := fun _ => { statusOk := false, bodyText := "", doc := emptyDoc }

/-- An archive whose page declares a timestamp string that does not
match the strptime format. -/
def archC5 : Archive := fun _ =>
  { statusOk := true, bodyText := "x",
    doc := { anchors := [], webcamDivs := [⟨some "/i.jpg", some "not a date"⟩] } }

/-- A page with three unseen time links whose first-in-page-order link
(`12:00`) is neither the chronologically earliest (`08:00`) nor latest
(`15:00`). -/
def docC6 : Doc :=
  { anchors := [⟨"12:00:00", "/a"⟩, ⟨"08:00:00", "/b"⟩, ⟨"15:00:00", "/c"⟩,
                ⟨"Previous Day", "/p"⟩],
    webcamDivs := [] }

/-- A page with two anchors labelled `10:00:00` with different hrefs
(first `/x`, later `/y`) and an `11:00:00` anchor between them. -/
def docDup : Doc :=
  { anchors := [⟨"10:00:00", "/x"⟩, ⟨"11:00:00", "/z"⟩, ⟨"10:00:00", "/y"⟩],
    webcamDivs := [] }

/-- A page whose first time label `99:00:00` passes `TIME_RE` but makes
`datetime.replace` raise, followed by an in-range unseen label. -/
def docRange : Doc :=
  { anchors := [⟨"99:00:00", "/e"⟩, ⟨"12:00:00", "/f"⟩], webcamDivs := [] }

/-- An archive whose page's only time link points at the page's own
timestamp (already seen once yielded), plus a Previous Day link. -/
def archC7 : Archive := fun _ =>
  { statusOk := true, bodyText := "c",
    doc := { anchors := [⟨"23:03:00", "/t"⟩, ⟨"Previous Day", "/prev"⟩],
             webcamDivs := [⟨some "/img.jpg", some "December 12, 2017 at 23:03"⟩] } }

/-- An archive serving one valid page at the hardcoded start URL, then
the sentinel. -/
def archC9 : Archive := fun url => if url = START_URL then pageA else pageS

/-- An image server that always succeeds with the same bytes. -/
def storeC9 : ImageStore := fun _ => some [7, 7]

/-! ## Theorems -/

/-! ### Digit and character lemmas -/

theorem charVal_digitChar {x : Nat} (h : x < 10) : charVal (Nat.digitChar x) = x := by
  interval_cases x <;> rfl

theorem isDigit_digitChar {x : Nat} (h : x < 10) : (Nat.digitChar x).isDigit = true := by
  interval_cases x <;> decide

theorem toLower_digitChar {x : Nat} (h : x < 10) :
    Char.toLower (Nat.digitChar x) = Nat.digitChar x := by
  interval_cases x <;> decide

theorem not_ws_digitChar {x : Nat} (h : x < 10) :
    (Nat.digitChar x).isWhitespace = false := by
  interval_cases x <;> decide

theorem map_toLower_pad2 {n : Nat} (h : n < 100) :
    (pad2 n).map Char.toLower = pad2 n := by
  have ha : n / 10 < 10 := by omega
  have hb : n % 10 < 10 := by omega
  simp [pad2, toLower_digitChar ha, toLower_digitChar hb]

theorem map_toLower_pad4 {n : Nat} (h : n < 10000) :
    (pad4 n).map Char.toLower = pad4 n := by
  have h1 : n / 1000 < 10 := by omega
  have h2 : n / 100 % 10 < 10 := by omega
  have h3 : n / 10 % 10 < 10 := by omega
  have h4 : n % 10 < 10 := by omega
  simp [pad4, toLower_digitChar h1, toLower_digitChar h2, toLower_digitChar h3,
    toLower_digitChar h4]

/-! ### Format-component lemmas -/

theorem matchLit_append (lit rest : List Char) : matchLit lit (lit ++ rest) = some rest := by
  induction lit with
  | nil => rfl
  | cons c ls ih => simp [matchLit, ih]

theorem skipWs1_space (l : List Char) : skipWs1 (' ' :: l) = some (skipWs l) := by
  simp [skipWs1]

theorem skipWs_cons_of_not {c : Char} (h : c.isWhitespace = false) (l : List Char) :
    skipWs (c :: l) = c :: l := by
  simp [skipWs, h]

theorem skipWs_pad2 {n : Nat} (h : n < 100) (l : List Char) :
    skipWs (pad2 n ++ l) = pad2 n ++ l := by
  have ha : n / 10 < 10 := by omega
  simp only [pad2, List.cons_append]
  exact skipWs_cons_of_not (not_ws_digitChar ha) _

theorem skipWs_pad4 {n : Nat} (h : n < 10000) (l : List Char) :
    skipWs (pad4 n ++ l) = pad4 n ++ l := by
  have ha : n / 1000 < 10 := by omega
  simp only [pad4, List.cons_append]
  exact skipWs_cons_of_not (not_ws_digitChar ha) _

theorem parseNumField_pad2 (twoLo twoHi oneLo n : Nat) (rest : List Char)
    (h1 : twoLo ≤ n) (h2 : n ≤ twoHi) (hn : n < 100) :
    parseNumField twoLo twoHi oneLo (pad2 n ++ rest) = some (n, rest) := by
  have ha : n / 10 < 10 := by omega
  have hb : n % 10 < 10 := by omega
  have hv : charVal (Nat.digitChar (n / 10)) * 10 + charVal (Nat.digitChar (n % 10)) = n := by
    rw [charVal_digitChar ha, charVal_digitChar hb]; omega
  simp only [pad2, List.cons_append, List.nil_append, parseNumField, isDigit_digitChar ha,
    isDigit_digitChar hb, if_true, hv]
  rw [if_pos ⟨h1, h2⟩]

theorem parseYear4_pad4 (y : Nat) (rest : List Char) (hy : y < 10000) :
    parseYear4 (pad4 y ++ rest) = some (y, rest) := by
  have h1 : y / 1000 < 10 := by omega
  have h2 : y / 100 % 10 < 10 := by omega
  have h3 : y / 10 % 10 < 10 := by omega
  have h4 : y % 10 < 10 := by omega
  have hv : ((charVal (Nat.digitChar (y / 1000)) * 10 + charVal (Nat.digitChar (y / 100 % 10))) * 10
      + charVal (Nat.digitChar (y / 10 % 10))) * 10 + charVal (Nat.digitChar (y % 10)) = y := by
    rw [charVal_digitChar h1, charVal_digitChar h2, charVal_digitChar h3, charVal_digitChar h4]
    omega
  simp only [pad4, List.cons_append, List.nil_append, parseYear4, isDigit_digitChar h1,
    isDigit_digitChar h2, isDigit_digitChar h3, isDigit_digitChar h4, hv, and_self, if_true]

theorem parse2_pad2 (n : Nat) (rest : List Char) (hn : n < 100) :
    parse2 (pad2 n ++ rest) = some (n, rest) := by
  have ha : n / 10 < 10 := by omega
  have hb : n % 10 < 10 := by omega
  have hv : charVal (Nat.digitChar (n / 10)) * 10 + charVal (Nat.digitChar (n % 10)) = n := by
    rw [charVal_digitChar ha, charVal_digitChar hb]; omega
  simp only [pad2, List.cons_append, List.nil_append, parse2, isDigit_digitChar ha,
    isDigit_digitChar hb, hv, and_self, if_true]

theorem daysInMonth_le (y m : Nat) : daysInMonth y m ≤ 31 := by
  unfold daysInMonth
  split_ifs <;> norm_num

/-! ### Month-name lemmas -/

theorem toLower_monthNameCap {m : Nat} (h1 : 1 ≤ m) (h2 : m ≤ 12) :
    (monthNameCap m).toList.map Char.toLower = monthLower m := by
  interval_cases m <;> decide

theorem parseMonthName_month {m : Nat} (h1 : 1 ≤ m) (h2 : m ≤ 12) (rest : List Char) :
    parseMonthName (monthLower m ++ rest) = some (m, rest) := by
  interval_cases m <;> rfl

/-! ### The strptime round trip -/

theorem map_toLower_mkSourceList (y m d h mi : Nat) (hm1 : 1 ≤ m) (hm2 : m ≤ 12)
    (hd : d < 100) (hy : y < 10000) (hh : h < 100) (hmi : mi < 100) :
    (mkSourceList y m d h mi).map Char.toLower =
      monthLower m ++ ' ' :: (pad2 d ++ ',' :: ' ' :: (pad4 y ++
        ' ' :: 'a' :: 't' :: ' ' :: (pad2 h ++ ':' :: pad2 mi))) := by
  have t1 : ' '.toLower = ' ' := by decide
  have t2 : ','.toLower = ',' := by decide
  have t3 : 'a'.toLower = 'a' := by decide
  have t4 : 't'.toLower = 't' := by decide
  have t5 : ':'.toLower = ':' := by decide
  simp only [mkSourceList, List.map_append, List.map_cons, toLower_monthNameCap hm1 hm2,
    map_toLower_pad2 hd, map_toLower_pad4 hy, map_toLower_pad2 hh, map_toLower_pad2 hmi,
    t1, t2, t3, t4, t5]

theorem parseHM_eval (m y d h mi : Nat) (hh2 : h ≤ 23) (hmi2 : mi ≤ 59)
    (hy1 : 1 ≤ y) (hd2 : d ≤ daysInMonth y m) :
    parseHM m y d (pad2 h ++ ':' :: pad2 mi) = some ⟨y, m, d, h, mi, 0⟩ := by
  have e1 : parseNumField 0 23 0 (pad2 h ++ ':' :: pad2 mi) = some (h, ':' :: pad2 mi) :=
    parseNumField_pad2 0 23 0 h _ (Nat.zero_le h) hh2 (by omega)
  have e2 : matchLit [':'] (':' :: pad2 mi) = some (pad2 mi) := by simp [matchLit]
  have e3 : parseNumField 0 59 0 (pad2 mi) = some (mi, []) := by
    have h0 := parseNumField_pad2 0 59 0 mi [] (Nat.zero_le mi) hmi2 (by omega)
    simpa using h0
  simp only [parseHM, e1, e2, e3]
  simp [hy1, hd2]

theorem parseYearAt_eval (m y d h mi : Nat) (hy : y < 10000) (hh : h ≤ 23) (hmi : mi ≤ 59)
    (hy1 : 1 ≤ y) (hd2 : d ≤ daysInMonth y m) :
    parseYearAt m d (pad4 y ++ ' ' :: 'a' :: 't' :: ' ' :: (pad2 h ++ ':' :: pad2 mi)) =
      some ⟨y, m, d, h, mi, 0⟩ := by
  have e1 : parseYear4 (pad4 y ++ ' ' :: 'a' :: 't' :: ' ' :: (pad2 h ++ ':' :: pad2 mi)) =
      some (y, ' ' :: 'a' :: 't' :: ' ' :: (pad2 h ++ ':' :: pad2 mi)) :=
    parseYear4_pad4 y _ hy
  have e2 : skipWs1 (' ' :: 'a' :: 't' :: ' ' :: (pad2 h ++ ':' :: pad2 mi)) =
      some ('a' :: 't' :: ' ' :: (pad2 h ++ ':' :: pad2 mi)) := by
    rw [skipWs1_space, skipWs_cons_of_not (by decide)]
  have e3 : matchLit ['a', 't'] ('a' :: 't' :: ' ' :: (pad2 h ++ ':' :: pad2 mi)) =
      some (' ' :: (pad2 h ++ ':' :: pad2 mi)) := by simp [matchLit]
  have e4 : skipWs1 (' ' :: (pad2 h ++ ':' :: pad2 mi)) = some (pad2 h ++ ':' :: pad2 mi) := by
    rw [skipWs1_space, skipWs_pad2 (by omega : h < 100)]
  simp only [parseYearAt, e1, e2, e3, e4]
  exact parseHM_eval m y d h mi hh hmi hy1 hd2

theorem parseDayPart_eval (m y d h mi : Nat) (hd1 : 1 ≤ d) (hd31 : d ≤ 31)
    (hy : y < 10000) (hh : h ≤ 23) (hmi : mi ≤ 59) (hy1 : 1 ≤ y) (hd2 : d ≤ daysInMonth y m) :
    parseDayPart m (' ' :: (pad2 d ++ ',' :: ' ' :: (pad4 y ++
      ' ' :: 'a' :: 't' :: ' ' :: (pad2 h ++ ':' :: pad2 mi)))) = some ⟨y, m, d, h, mi, 0⟩ := by
  have e1 : skipWs1 (' ' :: (pad2 d ++ ',' :: ' ' :: (pad4 y ++
      ' ' :: 'a' :: 't' :: ' ' :: (pad2 h ++ ':' :: pad2 mi)))) =
      some (pad2 d ++ ',' :: ' ' :: (pad4 y ++
        ' ' :: 'a' :: 't' :: ' ' :: (pad2 h ++ ':' :: pad2 mi))) := by
    rw [skipWs1_space, skipWs_pad2 (by omega : d < 100)]
  have e2 : parseNumField 1 31 1 (pad2 d ++ ',' :: ' ' :: (pad4 y ++
      ' ' :: 'a' :: 't' :: ' ' :: (pad2 h ++ ':' :: pad2 mi))) =
      some (d, ',' :: ' ' :: (pad4 y ++ ' ' :: 'a' :: 't' :: ' ' :: (pad2 h ++ ':' :: pad2 mi))) :=
    parseNumField_pad2 1 31 1 d _ hd1 hd31 (by omega)
  have e3 : matchLit [','] (',' :: ' ' :: (pad4 y ++
      ' ' :: 'a' :: 't' :: ' ' :: (pad2 h ++ ':' :: pad2 mi))) =
      some (' ' :: (pad4 y ++ ' ' :: 'a' :: 't' :: ' ' :: (pad2 h ++ ':' :: pad2 mi))) := by
    simp [matchLit]
  have e4 : skipWs1 (' ' :: (pad4 y ++ ' ' :: 'a' :: 't' :: ' ' :: (pad2 h ++ ':' :: pad2 mi))) =
      some (pad4 y ++ ' ' :: 'a' :: 't' :: ' ' :: (pad2 h ++ ':' :: pad2 mi)) := by
    rw [skipWs1_space, skipWs_pad4 hy]
  simp only [parseDayPart, e1, e2, e3, e4]
  exact parseYearAt_eval m y d h mi hy hh hmi hy1 hd2

/-- Parsing a canonical source-format string recovers its fields, with
seconds zero. -/
theorem parse_mkSourceString (y m d h mi : Nat)
    (hy1 : 1 ≤ y) (hy2 : y ≤ 9999) (hm1 : 1 ≤ m) (hm2 : m ≤ 12)
    (hd1 : 1 ≤ d) (hd2 : d ≤ daysInMonth y m) (hh : h ≤ 23) (hmi : mi ≤ 59) :
    parse_datetime (mkSourceString y m d h mi) = some ⟨y, m, d, h, mi, 0⟩ := by
  have hd31 : d ≤ 31 := le_trans hd2 (daysInMonth_le y m)
  have e0 : (mkSourceString y m d h mi).toList.map Char.toLower =
      monthLower m ++ ' ' :: (pad2 d ++ ',' :: ' ' :: (pad4 y ++
        ' ' :: 'a' :: 't' :: ' ' :: (pad2 h ++ ':' :: pad2 mi))) :=
    map_toLower_mkSourceList y m d h mi hm1 hm2 (by omega) (by omega) (by omega) (by omega)
  have e1 := parseMonthName_month hm1 hm2 (' ' :: (pad2 d ++ ',' :: ' ' :: (pad4 y ++
    ' ' :: 'a' :: 't' :: ' ' :: (pad2 h ++ ':' :: pad2 mi))))
  simp only [parse_datetime, e0, e1]
  exact parseDayPart_eval m y d h mi hd1 hd31 (by omega) hh hmi hy1 hd2

/-! ### The ISO-8601 round trip -/

theorem parseIsoDash2_pad2 {n : Nat} (hn : n < 100) (rest : List Char) :
    parseIsoDash2 ('-' :: (pad2 n ++ rest)) = some (n, rest) := by
  have e : matchLit ['-'] ('-' :: (pad2 n ++ rest)) = some (pad2 n ++ rest) := by
    simp [matchLit]
  simp only [parseIsoDash2, e, parse2_pad2 n rest hn]

theorem parseIsoColon2_pad2 {n : Nat} (hn : n < 100) (rest : List Char) :
    parseIsoColon2 (':' :: (pad2 n ++ rest)) = some (n, rest) := by
  have e : matchLit [':'] (':' :: (pad2 n ++ rest)) = some (pad2 n ++ rest) := by
    simp [matchLit]
  simp only [parseIsoColon2, e, parse2_pad2 n rest hn]

theorem parseIsoTime_eval (y mo d h mi sec : Nat) (hy1 : 1 ≤ y) (hm1 : 1 ≤ mo)
    (hm2 : mo ≤ 12) (hd1 : 1 ≤ d) (hd2 : d ≤ daysInMonth y mo) (hh : h ≤ 23)
    (hmi : mi ≤ 59) (hs : sec ≤ 59) :
    parseIsoTime y mo d ('T' :: (pad2 h ++ ':' :: (pad2 mi ++ ':' :: pad2 sec))) =
      some ⟨y, mo, d, h, mi, sec⟩ := by
  have e1 : matchLit ['T'] ('T' :: (pad2 h ++ ':' :: (pad2 mi ++ ':' :: pad2 sec))) =
      some (pad2 h ++ ':' :: (pad2 mi ++ ':' :: pad2 sec)) := by simp [matchLit]
  have e2 : parse2 (pad2 h ++ ':' :: (pad2 mi ++ ':' :: pad2 sec)) =
      some (h, ':' :: (pad2 mi ++ ':' :: pad2 sec)) := parse2_pad2 h _ (by omega)
  have e3 : parseIsoColon2 (':' :: (pad2 mi ++ ':' :: pad2 sec)) =
      some (mi, ':' :: pad2 sec) := parseIsoColon2_pad2 (by omega) _
  have e4 : parseIsoColon2 (':' :: pad2 sec) = some (sec, []) := by
    have h0 := parseIsoColon2_pad2 (show sec < 100 by omega) []
    simpa using h0
  simp only [parseIsoTime, e1, e2, e3, e4]
  simp [hy1, hm1, hm2, hd1, hd2, hh, hmi, hs]

/-- Reading back `isoformat` output recovers the same timestamp. -/
theorem parseIso_isoformat (dt : DateTime) (hy1 : 1 ≤ dt.year) (hy2 : dt.year ≤ 9999)
    (hm1 : 1 ≤ dt.month) (hm2 : dt.month ≤ 12) (hd1 : 1 ≤ dt.day)
    (hd2 : dt.day ≤ daysInMonth dt.year dt.month) (hh : dt.hour ≤ 23)
    (hmi : dt.minute ≤ 59) (hs : dt.second ≤ 59) :
    parseIso (isoformat dt) = some dt := by
  obtain ⟨y, mo, d, h, mi, sec⟩ := dt
  dsimp only at hy1 hy2 hm1 hm2 hd1 hd2 hh hmi hs
  have hd31 : d ≤ 31 := le_trans hd2 (daysInMonth_le y mo)
  have e1 : parseYear4 (pad4 y ++ '-' :: (pad2 mo ++ '-' :: (pad2 d ++
      'T' :: (pad2 h ++ ':' :: (pad2 mi ++ ':' :: pad2 sec))))) =
      some (y, '-' :: (pad2 mo ++ '-' :: (pad2 d ++
        'T' :: (pad2 h ++ ':' :: (pad2 mi ++ ':' :: pad2 sec))))) :=
    parseYear4_pad4 y _ (by omega)
  have e2 : parseIsoDash2 ('-' :: (pad2 mo ++ '-' :: (pad2 d ++
      'T' :: (pad2 h ++ ':' :: (pad2 mi ++ ':' :: pad2 sec))))) =
      some (mo, '-' :: (pad2 d ++ 'T' :: (pad2 h ++ ':' :: (pad2 mi ++ ':' :: pad2 sec)))) :=
    parseIsoDash2_pad2 (by omega) _
  have e3 : parseIsoDash2 ('-' :: (pad2 d ++
      'T' :: (pad2 h ++ ':' :: (pad2 mi ++ ':' :: pad2 sec)))) =
      some (d, 'T' :: (pad2 h ++ ':' :: (pad2 mi ++ ':' :: pad2 sec))) :=
    parseIsoDash2_pad2 (by omega) _
  have e4 := parseIsoTime_eval y mo d h mi sec hy1 hm1 hm2 hd1 hd2 hh hmi hs
  simp only [parseIso, isoformat, String.toList, List.cons_append, List.append_assoc,
    e1, e2, e3, e4]

/-- Claim C8: for every valid date-time string in the source format
`<Month> <Day>, <Year> at <HH:MM>`, `parse_datetime` yields a timestamp
whose year, month, day, hour and minute match the string and whose
seconds are zero, and formatting that timestamp to ISO-8601 and parsing
it back preserves the minute-level value. -/
theorem C8_parse_round_trip (y m d h mi : Nat)
    (hy1 : 1 ≤ y) (hy2 : y ≤ 9999) (hm1 : 1 ≤ m) (hm2 : m ≤ 12)
    (hd1 : 1 ≤ d) (hd2 : d ≤ daysInMonth y m) (hh : h ≤ 23) (hmi : mi ≤ 59) :
    parse_datetime (mkSourceString y m d h mi) = some ⟨y, m, d, h, mi, 0⟩ ∧
    (⟨y, m, d, h, mi, 0⟩ : DateTime).second = 0 ∧
    parseIso (isoformat ⟨y, m, d, h, mi, 0⟩) = some ⟨y, m, d, h, mi, 0⟩ := by
  refine ⟨parse_mkSourceString y m d h mi hy1 hy2 hm1 hm2 hd1 hd2 hh hmi, rfl, ?_⟩
  exact parseIso_isoformat ⟨y, m, d, h, mi, 0⟩ hy1 hy2 hm1 hm2 hd1 hd2 hh hmi (by simp)

/-- Witness for C8 at the spec's example `December 12, 2017 at 23:03`. -/
theorem C8_parse_round_trip_witness :
    (1 ≤ 2017 ∧ 12 ≤ daysInMonth 2017 12) ∧
    parse_datetime "December 12, 2017 at 23:03" = some ⟨2017, 12, 12, 23, 3, 0⟩ ∧
    (⟨2017, 12, 12, 23, 3, 0⟩ : DateTime).second = 0 ∧
    parseIso "2017-12-12T23:03:00" = some ⟨2017, 12, 12, 23, 3, 0⟩ := by
  have h := C8_parse_round_trip 2017 12 12 23 3 (by norm_num) (by norm_num) (by norm_num)
    (by norm_num) (by norm_num) (by decide) (by norm_num) (by norm_num)
  have e1 : mkSourceString 2017 12 12 23 3 = "December 12, 2017 at 23:03" := by decide
  have e2 : isoformat ⟨2017, 12, 12, 23, 3, 0⟩ = "2017-12-12T23:03:00" := by decide
  rw [e1, e2] at h
  exact ⟨⟨by norm_num, by decide⟩, h⟩

/-! ### Python-dict (insertion order) lemmas -/

theorem beq_comm_str (a b : String) : (a == b) = (b == a) := by
  by_cases h : a = b
  · subst h; rfl
  · rw [beq_eq_false_iff_ne.mpr h, beq_eq_false_iff_ne.mpr (Ne.symm h)]

theorem any_key_eq_contains (acc : List (String × String)) (k : String) :
    acc.any (fun p => p.1 == k) = (acc.map Prod.fst).contains k := by
  induction acc with
  | nil => rfl
  | cons p t ih =>
    simp only [List.any_cons, List.map_cons, List.contains_cons, ih, beq_comm_str k p.1]

theorem lookupStr_cons_pos {p : String × String} {t : List (String × String)} {k : String}
    (h : (p.1 == k) = true) : lookupStr (p :: t) k = some p.2 := by
  simp [lookupStr, List.find?, h]

theorem lookupStr_cons_neg {p : String × String} {t : List (String × String)} {k : String}
    (h : (p.1 == k) = false) : lookupStr (p :: t) k = lookupStr t k := by
  simp [lookupStr, List.find?, h]

theorem map_fst_update (acc : List (String × String)) (k v : String) :
    (acc.map (fun p => if p.1 == k then (p.1, v) else p)).map Prod.fst = acc.map Prod.fst := by
  induction acc with
  | nil => rfl
  | cons p t ih =>
    simp only [List.map_cons, ih]
    congr 1
    split <;> rfl

theorem keys_dictInsert_mem {acc : List (String × String)} {k : String} (v : String)
    (h : acc.any (fun p => p.1 == k) = true) :
    (dictInsert acc k v).map Prod.fst = acc.map Prod.fst := by
  unfold dictInsert
  rw [if_pos h]
  exact map_fst_update acc k v

theorem keys_dictInsert_not_mem {acc : List (String × String)} {k : String} (v : String)
    (h : acc.any (fun p => p.1 == k) = false) :
    (dictInsert acc k v).map Prod.fst = acc.map Prod.fst ++ [k] := by
  unfold dictInsert
  rw [if_neg (by simp [h])]
  simp

theorem lookupStr_update_self (acc : List (String × String)) (k v : String)
    (hmem : acc.any (fun p => p.1 == k) = true) :
    lookupStr (acc.map (fun p => if p.1 == k then (p.1, v) else p)) k = some v := by
  induction acc with
  | nil => simp at hmem
  | cons p t ih =>
    by_cases hp : (p.1 == k) = true
    · have e : (if p.1 == k then (p.1, v) else p) = (p.1, v) := if_pos hp
      rw [List.map_cons, e]
      exact lookupStr_cons_pos hp
    · have hp2 : (p.1 == k) = false := by simpa using hp
      have hmem2 : t.any (fun q => q.1 == k) = true := by
        simp only [List.any_cons, hp2, Bool.false_or] at hmem
        exact hmem
      have e : (if p.1 == k then (p.1, v) else p) = p := if_neg (by simp [hp2])
      rw [List.map_cons, e, lookupStr_cons_neg hp2]
      exact ih hmem2

theorem lookupStr_update_other (acc : List (String × String)) (k v kk : String)
    (h : (k == kk) = false) :
    lookupStr (acc.map (fun p => if p.1 == k then (p.1, v) else p)) kk = lookupStr acc kk := by
  induction acc with
  | nil => rfl
  | cons p t ih =>
    by_cases hp : (p.1 == kk) = true
    · have hne : (p.1 == k) = false := by
        have e1 : p.1 = kk := by simpa using hp
        have e2 : k ≠ kk := by simpa using h
        subst e1
        exact beq_eq_false_iff_ne.mpr fun hc => e2 hc.symm
      have e : (if p.1 == k then (p.1, v) else p) = p := if_neg (by simp [hne])
      rw [List.map_cons, e, lookupStr_cons_pos hp, lookupStr_cons_pos hp]
    · have hp2 : (p.1 == kk) = false := by simpa using hp
      have hkey : (if p.1 == k then (p.1, v) else p).1 = p.1 := by split <;> rfl
      have hhead : ((if p.1 == k then (p.1, v) else p).1 == kk) = false := by
        rw [hkey]; exact hp2
      rw [List.map_cons, lookupStr_cons_neg hhead, lookupStr_cons_neg hp2]
      exact ih

theorem lookupStr_append_single_self (acc : List (String × String)) (k v : String)
    (hmem : acc.any (fun p => p.1 == k) = false) :
    lookupStr (acc ++ [(k, v)]) k = some v := by
  induction acc with
  | nil =>
    rw [List.nil_append]
    exact lookupStr_cons_pos (by simp)
  | cons p t ih =>
    have hp : (p.1 == k) = false := by
      cases hc : (p.1 == k) with
      | false => rfl
      | true => simp [List.any_cons, hc] at hmem
    have ht : t.any (fun q => q.1 == k) = false := by
      simp only [List.any_cons, hp, Bool.false_or] at hmem
      exact hmem
    rw [List.cons_append, lookupStr_cons_neg hp]
    exact ih ht

theorem lookupStr_append_single_other (acc : List (String × String)) (k v kk : String)
    (h : (k == kk) = false) :
    lookupStr (acc ++ [(k, v)]) kk = lookupStr acc kk := by
  induction acc with
  | nil =>
    rw [List.nil_append]
    rw [lookupStr_cons_neg h]
  | cons p t ih =>
    by_cases hp : (p.1 == kk) = true
    · rw [List.cons_append, lookupStr_cons_pos hp, lookupStr_cons_pos hp]
    · have hp2 : (p.1 == kk) = false := by simpa using hp
      rw [List.cons_append, lookupStr_cons_neg hp2, lookupStr_cons_neg hp2]
      exact ih

theorem lookupStr_dictInsert_self (acc : List (String × String)) (k v : String) :
    lookupStr (dictInsert acc k v) k = some v := by
  unfold dictInsert
  cases hb : acc.any (fun p => p.1 == k) with
  | true =>
    rw [if_pos rfl]
    exact lookupStr_update_self acc k v hb
  | false =>
    rw [if_neg (by simp)]
    exact lookupStr_append_single_self acc k v hb

theorem lookupStr_dictInsert_other (acc : List (String × String)) (k v kk : String)
    (h : (k == kk) = false) :
    lookupStr (dictInsert acc k v) kk = lookupStr acc kk := by
  unfold dictInsert
  cases hb : acc.any (fun p => p.1 == k) with
  | true =>
    rw [if_pos rfl]
    exact lookupStr_update_other acc k v kk h
  | false =>
    rw [if_neg (by simp)]
    exact lookupStr_append_single_other acc k v kk h

/-! ### Dict-building (fold) lemmas -/

theorem contains_append_singleton (s : List String) (a x : String) :
    (s ++ [a]).contains x = (a :: s).contains x := by
  induction s with
  | nil => rfl
  | cons b t ih =>
    simp only [List.cons_append, List.contains_cons, ih, Bool.or_comm, Bool.or_left_comm]

theorem firstKeysAux_congr (l : List String) : ∀ s1 s2 : List String,
    (∀ x, s1.contains x = s2.contains x) → firstKeysAux s1 l = firstKeysAux s2 l := by
  induction l with
  | nil => intro s1 s2 _; rfl
  | cons k t ih =>
    intro s1 s2 h
    simp only [firstKeysAux, h k]
    cases hc : s2.contains k with
    | true =>
      rw [if_pos rfl, if_pos rfl]
      exact ih s1 s2 h
    | false =>
      rw [if_neg (by simp), if_neg (by simp)]
      refine congrArg (List.cons k) (ih (k :: s1) (k :: s2) fun x => ?_)
      simp only [List.contains_cons]
      rw [h x]

theorem keys_insertAll (l : List Anchor) : ∀ acc : List (String × String),
    (l.foldl (fun acc a => dictInsert acc a.text a.href) acc).map Prod.fst =
      acc.map Prod.fst ++ firstKeysAux (acc.map Prod.fst) (l.map Anchor.text) := by
  induction l with
  | nil => intro acc; simp [firstKeysAux]
  | cons a t ih =>
    intro acc
    simp only [List.foldl_cons, List.map_cons, firstKeysAux]
    cases hb : acc.any (fun p => p.1 == a.text) with
    | true =>
      have hc : (acc.map Prod.fst).contains a.text = true := by
        rw [← any_key_eq_contains]; exact hb
      rw [hc, if_pos rfl, ih (dictInsert acc a.text a.href), keys_dictInsert_mem _ hb]
    | false =>
      have hc : (acc.map Prod.fst).contains a.text = false := by
        rw [← any_key_eq_contains]; exact hb
      rw [hc, if_neg (by simp), ih (dictInsert acc a.text a.href),
        keys_dictInsert_not_mem _ hb, List.append_assoc]
      congr 1
      rw [List.singleton_append]
      congr 1
      exact firstKeysAux_congr _ _ _ fun x => contains_append_singleton _ _ _

theorem lookup_insertAll (l : List Anchor) : ∀ (acc : List (String × String)) (k : String),
    lookupStr (l.foldl (fun acc a => dictInsert acc a.text a.href) acc) k =
      match lastHref k l with
      | some v => some v
      | none => lookupStr acc k := by
  induction l with
  | nil => intro acc k; rfl
  | cons a t ih =>
    intro acc k
    simp only [List.foldl_cons, lastHref]
    rw [ih (dictInsert acc a.text a.href) k]
    cases hft : lastHref k t with
    | some v => rfl
    | none =>
      by_cases ha : (a.text == k) = true
      · have e : a.text = k := by simpa using ha
        rw [if_pos ha]
        subst e
        exact lookupStr_dictInsert_self acc a.text a.href
      · have ha2 : (a.text == k) = false := by simpa using ha
        rw [if_neg (by simp [ha2])]
        exact lookupStr_dictInsert_other acc a.text a.href k ha2

theorem mem_firstKeysAux {x : String} (l : List String) : ∀ s : List String,
    x ∈ firstKeysAux s l → x ∈ l := by
  induction l with
  | nil => intro s h; exact absurd h (by simp [firstKeysAux])
  | cons k t ih =>
    intro s h
    simp only [firstKeysAux] at h
    by_cases hc : s.contains k = true
    · rw [if_pos hc] at h
      exact List.mem_cons_of_mem _ (ih s h)
    · rw [if_neg hc] at h
      rcases List.mem_cons.mp h with h1 | h2
      · exact h1 ▸ List.mem_cons_self _ _
      · exact List.mem_cons_of_mem _ (ih (k :: s) h2)

/-! ### `get_time_links` and `get_next_time` lemmas -/

theorem insertAll_nodup (l : List Anchor) : ∀ acc : List (String × String),
    (∀ a ∈ l, acc.any (fun p => p.1 == a.text) = false) →
    (l.map Anchor.text).Nodup →
    l.foldl (fun acc a => dictInsert acc a.text a.href) acc =
      acc ++ l.map (fun a => (a.text, a.href)) := by
  induction l with
  | nil => intro acc _ _; simp
  | cons a t ih =>
    intro acc hdisj hnd
    simp only [List.foldl_cons]
    have hins : dictInsert acc a.text a.href = acc ++ [(a.text, a.href)] := by
      unfold dictInsert
      rw [if_neg (by simp [hdisj a (List.mem_cons_self a t)])]
    rw [hins]
    rw [ih (acc ++ [(a.text, a.href)]) ?_ ?_]
    · simp
    · intro b hb
      have h1 : acc.any (fun p => p.1 == b.text) = false := hdisj b (List.mem_cons_of_mem _ hb)
      have h2 : (a.text == b.text) = false := by
        simp only [List.map_cons, List.nodup_cons] at hnd
        have hni : a.text ∉ t.map Anchor.text := hnd.1
        refine beq_eq_false_iff_ne.mpr fun hc => hni ?_
        rw [hc]
        exact List.mem_map_of_mem _ hb
      simp [List.any_append, h1, h2]
    · simp only [List.map_cons, List.nodup_cons] at hnd
      exact hnd.2

theorem get_time_links_nodup (doc : Doc)
    (hnd : ((timeAnchors doc).map Anchor.text).Nodup) :
    get_time_links doc = (timeAnchors doc).map (fun a => (a.text, a.href)) := by
  unfold get_time_links
  rw [insertAll_nodup _ [] (fun a _ => rfl) hnd]
  simp

theorem keys_get_time_links (doc : Doc) :
    (get_time_links doc).map Prod.fst = firstKeys ((timeAnchors doc).map Anchor.text) := by
  unfold get_time_links firstKeys
  rw [keys_insertAll]
  simp

theorem mem_keys_get_time_links {doc : Doc} {k : String}
    (h : k ∈ (get_time_links doc).map Prod.fst) : k ∈ (timeAnchors doc).map Anchor.text := by
  rw [keys_get_time_links] at h
  exact mem_firstKeysAux _ _ h

theorem adjustOk_iff (dt : DateTime) (x : Anchor) :
    adjustOk dt x = true ↔ ∃ c, adjust_date dt x.text = .ok c := by
  unfold adjustOk
  cases h : adjust_date dt x.text with
  | error e => simp
  | ok c => simp

theorem unseenOk_iff (dt : DateTime) (seen : List DateTime) (x : Anchor) :
    unseenOk dt seen x = true ↔ ∃ c, adjust_date dt x.text = .ok c ∧ c ∉ seen := by
  unfold unseenOk
  cases h : adjust_date dt x.text with
  | error e => simp
  | ok c => simp [List.elem_iff]

theorem seenOk_iff (dt : DateTime) (seen : List DateTime) (x : Anchor) :
    seenOk dt seen x = true ↔ ∃ c, adjust_date dt x.text = .ok c ∧ c ∈ seen := by
  unfold seenOk
  cases h : adjust_date dt x.text with
  | error e => simp
  | ok c => simp [List.elem_iff]

theorem nextTimeLoop_cons (dt : DateTime) (seen : List DateTime) (t link : String)
    (rest : List (String × String)) (c : DateTime) (hc : adjust_date dt t = .ok c) :
    nextTimeLoop dt seen ((t, link) :: rest) =
      if c ∈ seen then nextTimeLoop dt seen rest else .ok (some (BASE_URL ++ link)) := by
  show (match adjust_date dt t with
    | .error e => Except.error e
    | .ok adjusted =>
      if adjusted ∈ seen then nextTimeLoop dt seen rest
      else .ok (some (BASE_URL ++ link))) = _
  rw [hc]

theorem nextTimeLoop_cons_error (dt : DateTime) (seen : List DateTime) (t link : String)
    (rest : List (String × String)) (e : PyError) (hc : adjust_date dt t = .error e) :
    nextTimeLoop dt seen ((t, link) :: rest) = .error e := by
  show (match adjust_date dt t with
    | .error e => Except.error e
    | .ok adjusted =>
      if adjusted ∈ seen then nextTimeLoop dt seen rest
      else .ok (some (BASE_URL ++ link))) = _
  rw [hc]

theorem nextTimeLoop_all_seen (dt : DateTime) (seen : List DateTime) :
    ∀ l : List (String × String),
    (∀ p ∈ l, ∃ c, adjust_date dt p.1 = .ok c ∧ c ∈ seen) →
    nextTimeLoop dt seen l = .ok none := by
  intro l
  induction l with
  | nil => intro _; rfl
  | cons p rest ih =>
    intro h
    obtain ⟨t, link⟩ := p
    obtain ⟨c, hc0, hm⟩ := h (t, link) (List.mem_cons_self _ _)
    have hc : adjust_date dt t = .ok c := hc0
    rw [nextTimeLoop_cons dt seen t link rest c hc, if_pos hm]
    exact ih fun q hq => h q (List.mem_cons_of_mem _ hq)

theorem nextTimeLoop_ok_some (dt : DateTime) (seen : List DateTime) :
    ∀ (l : List (String × String)) (u : String),
    nextTimeLoop dt seen l = .ok (some u) →
    ∃ p ∈ l, ∃ c, adjust_date dt p.1 = .ok c ∧ c ∉ seen ∧ u = BASE_URL ++ p.2 := by
  intro l
  induction l with
  | nil => intro u h; simp [nextTimeLoop] at h
  | cons p rest ih =>
    intro u h
    obtain ⟨t, link⟩ := p
    cases hc : adjust_date dt t with
    | error e =>
      rw [nextTimeLoop_cons_error dt seen t link rest e hc] at h
      simp at h
    | ok c =>
      rw [nextTimeLoop_cons dt seen t link rest c hc] at h
      by_cases hm : c ∈ seen
      · rw [if_pos hm] at h
        obtain ⟨q, hq, hrest⟩ := ih u h
        exact ⟨q, List.mem_cons_of_mem _ hq, hrest⟩
      · rw [if_neg hm] at h
        have hu : BASE_URL ++ link = u := by simpa using h
        exact ⟨(t, link), List.mem_cons_self _ _, c, hc, hm, hu.symm⟩

theorem nextTimeLoop_map_first (dt : DateTime) (seen : List DateTime) :
    ∀ (l : List Anchor) (a : Anchor),
    (∀ x ∈ l, adjustOk dt x = true) →
    l.find? (unseenOk dt seen) = some a →
    nextTimeLoop dt seen (l.map (fun x => (x.text, x.href))) =
      .ok (some (BASE_URL ++ a.href)) := by
  intro l
  induction l with
  | nil => intro a _ hfind; simp at hfind
  | cons x rest ih =>
    intro a hok hfind
    cases hu : unseenOk dt seen x with
    | true =>
      rw [List.find?_cons_of_pos _ hu] at hfind
      have ha : x = a := by simpa using hfind
      subst ha
      obtain ⟨c, hc, hnm⟩ := (unseenOk_iff dt seen x).mp hu
      rw [List.map_cons, nextTimeLoop_cons dt seen x.text x.href _ c hc, if_neg hnm]
    | false =>
      have hfind2 : rest.find? (unseenOk dt seen) = some a := by
        rw [List.find?_cons_of_neg _ (by simp [hu])] at hfind
        exact hfind
      obtain ⟨c, hc⟩ := (adjustOk_iff dt x).mp (hok x (List.mem_cons_self _ _))
      have hm : c ∈ seen := by
        by_contra hnm
        have ht : unseenOk dt seen x = true := (unseenOk_iff dt seen x).mpr ⟨c, hc, hnm⟩
        rw [ht] at hu
        simp at hu
      rw [List.map_cons, nextTimeLoop_cons dt seen x.text x.href _ c hc, if_pos hm]
      exact ih a (fun q hq => hok q (List.mem_cons_of_mem _ hq)) hfind2

theorem get_next_time_eq_none {dt : DateTime} {seen : List DateTime} {doc : Doc}
    (hall : ∀ a ∈ timeAnchors doc, seenOk dt seen a = true) :
    get_next_time dt seen doc = .ok none := by
  unfold get_next_time
  apply nextTimeLoop_all_seen
  intro p hp
  have hk : p.1 ∈ (timeAnchors doc).map Anchor.text :=
    mem_keys_get_time_links (List.mem_map_of_mem Prod.fst hp)
  rcases List.mem_map.mp hk with ⟨a, ha, hae⟩
  obtain ⟨c, hc, hm⟩ := (seenOk_iff dt seen a).mp (hall a ha)
  refine ⟨c, ?_, hm⟩
  rw [← hae]
  exact hc

theorem get_next_time_eq_some {dt : DateTime} {seen : List DateTime} {doc : Doc} {u : String}
    (h : get_next_time dt seen doc = .ok (some u)) :
    ∃ p ∈ get_time_links doc, ∃ c,
      adjust_date dt p.1 = .ok c ∧ c ∉ seen ∧ u = BASE_URL ++ p.2 := by
  unfold get_next_time at h
  exact nextTimeLoop_ok_some dt seen _ u h

/-! ### Walk-step lemmas -/

theorem walkRun_succ (archive : Archive) (fuel : Nat) (seen : List DateTime) (url : String) :
    walkRun archive (fuel + 1) seen url =
      match walkStep archive seen url with
      | .terminated e => ([], endOutcome e)
      | .stepped dt img (.error e) => ([(dt, img)], endOutcome e)
      | .stepped dt img (.ok u) =>
        ((dt, img) :: (walkRun archive fuel (seen ++ [dt]) u).1,
          (walkRun archive fuel (seen ++ [dt]) u).2) := rfl

theorem walkStep_of_get_html_error {archive : Archive} {seen : List DateTime} {url : String}
    {e : PyError} (h : get_html archive url = .error e) :
    walkStep archive seen url = .terminated e := by
  unfold walkStep
  rw [h]

theorem get_html_ok_doc {archive : Archive} {url : String} {doc : Doc}
    (h : get_html archive url = .ok doc) :
    doc = (archive url).doc ∧ (archive url).statusOk = true ∧
      check_valid (archive url).bodyText = true := by
  cases hb : (archive url).statusOk with
  | false => simp [get_html, hb] at h
  | true =>
    cases hcv : check_valid (archive url).bodyText with
    | false => simp [get_html, hb, hcv] at h
    | true =>
      simp [get_html, hb, hcv] at h
      exact ⟨h.symm, rfl, rfl⟩

theorem walkStep_stepped {archive : Archive} {seen : List DateTime} {url : String}
    {dt : DateTime} {img : String} {nxt : Except PyError String}
    (h : walkStep archive seen url = .stepped dt img nxt) :
    get_html archive url = .ok (archive url).doc ∧
    get_datetime (archive url).doc = .ok dt ∧
    get_image (archive url).doc = .ok img ∧
    nxt = nextUrl dt (seen ++ [dt]) (archive url).doc := by
  unfold walkStep at h
  split at h
  case h_1 => simp at h
  case h_2 =>
    rename_i doc hg
    split at h
    case h_1 => simp at h
    case h_2 =>
      rename_i dt2 hd
      split at h
      case h_1 => simp at h
      case h_2 =>
        rename_i img2 hi
        simp only [StepResult.stepped.injEq] at h
        obtain ⟨e1, e2, e3⟩ := h
        subst e1
        subst e2
        obtain ⟨hdoc, -, -⟩ := get_html_ok_doc hg
        subst hdoc
        exact ⟨hg, hd, hi, e3.symm⟩

theorem walkRun_traj (archive : Archive) (start : String) :
    ∀ (n : Nat) (ys : List (DateTime × String)) (url : String),
    traj archive start n = some (ys, url) → ∀ fuel : Nat,
    walkRun archive (n + fuel) [] start =
      (ys ++ (walkRun archive fuel (ys.map Prod.fst) url).1,
        (walkRun archive fuel (ys.map Prod.fst) url).2) := by
  intro n
  induction n with
  | zero =>
    intro ys url h fuel
    simp only [traj] at h
    have h2 := Option.some.inj h
    have e1 : ([] : List (DateTime × String)) = ys := congrArg Prod.fst h2
    have e2 : start = url := congrArg Prod.snd h2
    subst e1
    subst e2
    simp
  | succ n ih =>
    intro ys url h fuel
    simp only [traj] at h
    split at h
    case h_1 => simp at h
    case h_2 =>
      rename_i ys0 url0 ht
      split at h
      case h_2 => simp at h
      case h_1 =>
        rename_i dt img u hs
        have h2 := Option.some.inj h
        have e1 : ys0 ++ [(dt, img)] = ys := congrArg Prod.fst h2
        have e2 : u = url := congrArg Prod.snd h2
        subst e2
        have hw := ih ys0 url0 ht (fuel + 1)
        rw [walkRun_succ, hs] at hw
        have hn : n + 1 + fuel = n + (fuel + 1) := by omega
        rw [hn, hw, ← e1]
        simp [List.map_append]

/-! ### Claim theorems about the walk -/

/-- Claim C1 (amended): every yielded timestamp is recorded in
`seen_dates` before the next traversal decision, and a next URL chosen
through a time link always has a successfully adjusted candidate
timestamp not yet in the seen-set; the walk can nonetheless yield a
repeated timestamp when a fetched page (e.g. one reached through the
Previous Day fallback) declares an already-seen timestamp. -/
theorem C1_seen_guard (archive : Archive) (seen : List DateTime) (url : String)
    (dt : DateTime) (img u : String)
    (hstep : walkStep archive seen url = .stepped dt img (.ok u)) :
    (∃ p ∈ get_time_links (archive url).doc, ∃ c,
        adjust_date dt p.1 = .ok c ∧ c ∉ seen ++ [dt] ∧ u = BASE_URL ++ p.2) ∨
    (get_next_time dt (seen ++ [dt]) (archive url).doc = .ok none ∧
      ∃ h, get_prev_link (archive url).doc = .ok h ∧ u = BASE_URL ++ h) := by
  obtain ⟨-, -, -, hnx⟩ := walkStep_stepped hstep
  unfold nextUrl at hnx
  cases hn : get_next_time dt (seen ++ [dt]) (archive url).doc with
  | error e => rw [hn] at hnx; simp at hnx
  | ok o =>
    cases o with
    | some u2 =>
      rw [hn] at hnx
      have hu : u2 = u := by simpa using hnx.symm
      subst hu
      obtain ⟨p, hp, c, hc, hnm, he⟩ := get_next_time_eq_some hn
      exact Or.inl ⟨p, hp, c, hc, hnm, he⟩
    | none =>
      rw [hn] at hnx
      cases hpl : get_prev_link (archive url).doc with
      | error e => rw [hpl] at hnx; simp at hnx
      | ok href =>
        rw [hpl] at hnx
        have hu : BASE_URL ++ href = u := by simpa using hnx.symm
        exact Or.inr ⟨rfl, href, rfl, hu.symm⟩

/-- Witness for C1 (amended) on a concrete page whose next URL comes
from the Previous Day fallback. -/
theorem C1_seen_guard_witness :
    walkStep archC1 [] "start" = .stepped dt0 "/img1.jpg" (.ok (BASE_URL ++ "?d1")) ∧
    ((∃ p ∈ get_time_links (archC1 "start").doc, ∃ c,
        adjust_date dt0 p.1 = .ok c ∧ c ∉ [] ++ [dt0] ∧
        BASE_URL ++ "?d1" = BASE_URL ++ p.2) ∨
      (get_next_time dt0 ([] ++ [dt0]) (archC1 "start").doc = .ok none ∧
        ∃ h, get_prev_link (archC1 "start").doc = .ok h ∧
          BASE_URL ++ "?d1" = BASE_URL ++ h)) :=
  ⟨by decide, C1_seen_guard archC1 [] "start" dt0 "/img1.jpg" (BASE_URL ++ "?d1") (by decide)⟩

/-- Counterexample to C1 as stated: `archC1` serves two distinct pages
that declare the same timestamp, the second reached through the
Previous Day link, so one walk yields the same timestamp twice. -/
theorem C1_counterexample :
    walkRun archC1 5 [] "start" =
      ([(dt0, "/img1.jpg"), (dt0, "/img2.jpg")], .cleanStop .valueErrorSentinel) ∧
    ¬ ((walkRun archC1 5 [] "start").1.map Prod.fst).Nodup := by
  decide

/-- Claim C2: for every simulated archive whose traversal path reaches,
after `n` fully successful steps, a page served with a success status
whose raw body contains the exhausted marker, the walk's sequence is
finite (exactly the `n` pairs of the path, for any remaining budget) and
termination happens through the sentinel `ValueError` raised by
`get_html`, not through any other exception or crash. -/
theorem C2_termination (archive : Archive) (start : String) (n fuel : Nat)
    (ys : List (DateTime × String)) (url : String)
    (htraj : traj archive start n = some (ys, url))
    (hsent : get_html archive url = .error .valueErrorSentinel) :
    walkRun archive (n + (fuel + 1)) [] start = (ys, .cleanStop .valueErrorSentinel) := by
  have hw := walkRun_traj archive start n ys url htraj (fuel + 1)
  rw [walkRun_succ, walkStep_of_get_html_error hsent] at hw
  simpa using hw

/-- Witness for C2: a two-page archive followed by the sentinel page. -/
theorem C2_termination_witness :
    traj archC1 "start" 2 =
      some ([(dt0, "/img1.jpg"), (dt0, "/img2.jpg")], BASE_URL ++ "?d2") ∧
    get_html archC1 (BASE_URL ++ "?d2") = .error .valueErrorSentinel ∧
    walkRun archC1 4 [] "start" =
      ([(dt0, "/img1.jpg"), (dt0, "/img2.jpg")], .cleanStop .valueErrorSentinel) :=
  ⟨by decide, by decide,
    C2_termination archC1 "start" 2 1 [(dt0, "/img1.jpg"), (dt0, "/img2.jpg")]
      (BASE_URL ++ "?d2") (by decide) (by decide)⟩

/-- Claim C3: for a fetch whose response has a success status, `get_html`
raises the invalid-page `ValueError` exactly when the raw body contains
the literal marker string, and when the walk's current fetch raises it
the walk ends cleanly with zero further yields. -/
theorem C3_sentinel_iff (archive : Archive) (url : String) (seen : List DateTime) (fuel : Nat)
    (hok : (archive url).statusOk = true) :
    (get_html archive url = .error .valueErrorSentinel ↔
      strContains (archive url).bodyText ERROR_MSG = true) ∧
    (get_html archive url = .error .valueErrorSentinel →
      walkRun archive (fuel + 1) seen url = ([], .cleanStop .valueErrorSentinel)) := by
  constructor
  · cases hcv : strContains (archive url).bodyText ERROR_MSG with
    | true =>
      have hcheck : check_valid (archive url).bodyText = false := by
        simp [check_valid, hcv]
      simp [get_html, hok, hcheck]
    | false =>
      have hcheck : check_valid (archive url).bodyText = true := by
        simp [check_valid, hcv]
      simp [get_html, hok, hcheck]
  · intro h
    rw [walkRun_succ, walkStep_of_get_html_error h]
    rfl

/-- Witness for C3 at the sentinel page of `archC1`. -/
theorem C3_sentinel_iff_witness :
    (archC1 (BASE_URL ++ "?d2")).statusOk = true ∧
    (get_html archC1 (BASE_URL ++ "?d2") = .error .valueErrorSentinel ↔
      strContains (archC1 (BASE_URL ++ "?d2")).bodyText ERROR_MSG = true) ∧
    (get_html archC1 (BASE_URL ++ "?d2") = .error .valueErrorSentinel →
      walkRun archC1 1 [] (BASE_URL ++ "?d2") = ([], .cleanStop .valueErrorSentinel)) :=
  ⟨by decide, (C3_sentinel_iff archC1 (BASE_URL ++ "?d2") [] 0 (by decide)).1,
    (C3_sentinel_iff archC1 (BASE_URL ++ "?d2") [] 0 (by decide)).2⟩

/-- Claim C4 (amended): a non-success HTTP status on a page fetch raises
`requests.HTTPError`, which is not a `ValueError` and therefore is NOT
caught by `walk`'s `except ValueError` clause: the walk ends with the
exception escaping uncaught, observably different from the caught
end-of-archive signal. -/
theorem C4_transport_crash (archive : Archive) (seen : List DateTime) (url : String)
    (fuel : Nat) (hfail : (archive url).statusOk = false) :
    walkRun archive (fuel + 1) seen url = ([], .crashed .httpError) ∧
    (WalkOutcome.crashed .httpError).isCaughtStop = false := by
  have hg : get_html archive url = .error .httpError := by
    simp [get_html, hfail]
  rw [walkRun_succ, walkStep_of_get_html_error hg]
  exact ⟨rfl, rfl⟩

/-- Witness for C4 (amended) on an archive whose fetches all fail. -/
theorem C4_transport_crash_witness :
    (archC4 START_URL).statusOk = false ∧
    walkRun archC4 1 [] START_URL = ([], .crashed .httpError) ∧
    (WalkOutcome.crashed .httpError).isCaughtStop = false :=
  ⟨rfl, (C4_transport_crash archC4 [] START_URL 0 rfl).1,
    (C4_transport_crash archC4 [] START_URL 0 rfl).2⟩

/-- Counterexample to C4 as stated: on a transport failure the walk does
NOT end through the caught condition (no diagnostic, no clean stop); the
`HTTPError` escapes, unlike the sentinel case. -/
theorem C4_counterexample :
    walkRun archC4 1 [] START_URL = ([], .crashed .httpError) ∧
    (WalkOutcome.crashed .httpError).isCaughtStop = false ∧
    WalkOutcome.crashed .httpError ≠ .cleanStop .valueErrorSentinel := by
  decide

/-- Claim C5 (amended): a timestamp string that does not match the
strptime format raises a `ValueError`, which IS caught by `walk`'s
`except ValueError` clause: the walk ends cleanly (diagnostic printed,
generator exhausted) rather than propagating the parse error out of the
walk. -/
theorem C5_parse_error_caught (archive : Archive) (seen : List DateTime) (url : String)
    (fuel : Nat) (doc : Doc)
    (hdoc : get_html archive url = .ok doc)
    (hparse : get_datetime doc = .error .valueErrorParse) :
    walkRun archive (fuel + 1) seen url = ([], .cleanStop .valueErrorParse) ∧
    (WalkOutcome.cleanStop .valueErrorParse).isCaughtStop = true := by
  have hs : walkStep archive seen url = .terminated .valueErrorParse := by
    unfold walkStep
    rw [hdoc]
    show (match get_datetime doc with
      | .error e => StepResult.terminated e
      | .ok dt =>
        match get_image doc with
        | .error e => StepResult.terminated e
        | .ok img => StepResult.stepped dt img (nextUrl dt (seen ++ [dt]) doc)) =
      StepResult.terminated .valueErrorParse
    rw [hparse]
  rw [walkRun_succ, hs]
  exact ⟨rfl, rfl⟩

/-- Witness for C5 (amended) on an archive whose page declares the
timestamp string `not a date`. -/
theorem C5_parse_error_caught_witness :
    get_html archC5 START_URL = .ok (archC5 START_URL).doc ∧
    get_datetime (archC5 START_URL).doc = .error .valueErrorParse ∧
    walkRun archC5 1 [] START_URL = ([], .cleanStop .valueErrorParse) :=
  ⟨by decide, by decide,
    (C5_parse_error_caught archC5 [] START_URL 0 (archC5 START_URL).doc
      (by decide) (by decide)).1⟩

/-- Counterexample to C5 as stated: the parse failure is converted into
clean end-of-sequence termination through the caught condition; it does
not escape the walk. -/
theorem C5_counterexample :
    walkRun archC5 1 [] START_URL = ([], .cleanStop .valueErrorParse) ∧
    (WalkOutcome.cleanStop .valueErrorParse).isCaughtStop = true ∧
    WalkOutcome.cleanStop .valueErrorParse ≠ .crashed .valueErrorParse := by
  decide

/-- Claim C6 (amended, restricted to pages whose time labels are
pairwise distinct and all denote in-range times): when more than one
time link on the page yields an unseen candidate timestamp, the walker
selects the first unseen candidate in the page's natural anchor order —
whatever its chronological rank — and the next URL is the fixed base
endpoint joined with that anchor's relative fragment.  (With duplicate
labels the stored href is the last duplicate's — see the C10 theorem —
and an out-of-range label such as `99:00:00` reached before the first
unseen candidate makes `datetime.replace` raise instead of selecting
any URL.) -/
theorem C6_first_unseen (dt : DateTime) (seen : List DateTime) (doc : Doc) (a : Anchor)
    (hnd : ((timeAnchors doc).map Anchor.text).Nodup)
    (hok : ∀ x ∈ timeAnchors doc, adjustOk dt x = true)
    (_hmany : 2 ≤ ((timeAnchors doc).filter (unseenOk dt seen)).length)
    (hfind : (timeAnchors doc).find? (unseenOk dt seen) = some a) :
    get_next_time dt seen doc = .ok (some (BASE_URL ++ a.href)) := by
  unfold get_next_time
  rw [get_time_links_nodup doc hnd]
  exact nextTimeLoop_map_first dt seen (timeAnchors doc) a hok hfind

/-- Witness for C6 on a page with three unseen in-range time links
listed in the order 12:00, 08:00, 15:00: the walker picks the 12:00
link (neither the chronologically earliest nor latest) and follows its
href. -/
theorem C6_first_unseen_witness :
    ((timeAnchors docC6).map Anchor.text).Nodup ∧
    (∀ x ∈ timeAnchors docC6, adjustOk dt0 x = true) ∧
    2 ≤ ((timeAnchors docC6).filter (unseenOk dt0 [])).length ∧
    (timeAnchors docC6).find? (unseenOk dt0 []) = some ⟨"12:00:00", "/a"⟩ ∧
    get_next_time dt0 [] docC6 =
      .ok (some (BASE_URL ++ (⟨"12:00:00", "/a"⟩ : Anchor).href)) :=
  ⟨by decide, by decide, by decide, by decide,
    C6_first_unseen dt0 [] docC6 ⟨"12:00:00", "/a"⟩ (by decide) (by decide) (by decide)
      (by decide)⟩

/-- Counterexample to C6 as stated, in both failure modes.  On `docDup`
two anchors carry the label `10:00:00`: the first unseen candidate in
page anchor order is the anchor with href `/x`, yet the walker's next
URL uses `/y`, the href of the later duplicate.  On `docRange` the
first unseen candidate is the `12:00:00` anchor with href `/f`, yet the
walker selects no URL at all: the earlier `99:00:00` label passes
`TIME_RE` and `datetime.replace` raises a `ValueError` first. -/
theorem C6_counterexample :
    (timeAnchors docDup).find? (unseenOk dt0 []) = some ⟨"10:00:00", "/x"⟩ ∧
    2 ≤ ((timeAnchors docDup).filter (unseenOk dt0 [])).length ∧
    get_next_time dt0 [] docDup = .ok (some (BASE_URL ++ "/y")) ∧
    BASE_URL ++ "/y" ≠ BASE_URL ++ "/x" ∧
    (timeAnchors docRange).find? (unseenOk dt0 []) = some ⟨"12:00:00", "/f"⟩ ∧
    get_next_time dt0 [] docRange = .error .valueErrorAdjust := by
  decide

/-- Claim C7: when the step at `url` yields `(dt, img)` and every time
link of the page has a candidate timestamp (its label adjusts without a
`ValueError`) that is already in the seen-set (which now includes
`dt`), `get_next_time` returns `None` and the next
URL is the base endpoint joined with the first Previous Day anchor's
href; if the page has no Previous Day anchor, the step raises
`IndexError`, which escapes the walk (a hard failure, not a silent
continuation). -/
theorem C7_prev_day_fallback (archive : Archive) (seen : List DateTime) (url : String)
    (dt : DateTime) (img : String) (nxt : Except PyError String) (fuel : Nat)
    (hstep : walkStep archive seen url = .stepped dt img nxt)
    (hall : ∀ a ∈ timeAnchors (archive url).doc, seenOk dt (seen ++ [dt]) a = true) :
    get_next_time dt (seen ++ [dt]) (archive url).doc = .ok none ∧
    (∀ h t, prevHrefs (archive url).doc = h :: t → nxt = .ok (BASE_URL ++ h)) ∧
    (prevHrefs (archive url).doc = [] →
      nxt = .error .indexError ∧
      walkRun archive (fuel + 1) seen url = ([(dt, img)], .crashed .indexError)) := by
  obtain ⟨-, -, -, hnx⟩ := walkStep_stepped hstep
  have hnone : get_next_time dt (seen ++ [dt]) (archive url).doc = .ok none :=
    get_next_time_eq_none hall
  unfold nextUrl at hnx
  rw [hnone] at hnx
  refine ⟨hnone, ?_, ?_⟩
  · intro h t hpl
    have hok : get_prev_link (archive url).doc = .ok h := by
      unfold get_prev_link
      rw [hpl]
    rw [hok] at hnx
    exact hnx
  · intro hpl
    have herr : get_prev_link (archive url).doc = .error .indexError := by
      unfold get_prev_link
      rw [hpl]
    rw [herr] at hnx
    subst hnx
    refine ⟨rfl, ?_⟩
    rw [walkRun_succ, hstep]
    rfl

/-- Witness for C7 on a page whose only time link points back at the
page's own (just recorded) timestamp, with a Previous Day anchor. -/
theorem C7_prev_day_fallback_witness :
    walkStep archC7 [] "u" = .stepped dt0 "/img.jpg" (.ok (BASE_URL ++ "/prev")) ∧
    (∀ a ∈ timeAnchors (archC7 "u").doc, seenOk dt0 ([] ++ [dt0]) a = true) ∧
    get_next_time dt0 ([] ++ [dt0]) (archC7 "u").doc = .ok none ∧
    (∀ h t, prevHrefs (archC7 "u").doc = h :: t →
      (Except.ok (BASE_URL ++ "/prev") : Except PyError String) = .ok (BASE_URL ++ h)) :=
  ⟨by decide, by decide,
    (C7_prev_day_fallback archC7 [] "u" dt0 "/img.jpg" (.ok (BASE_URL ++ "/prev")) 0
      (by decide) (by decide)).1,
    (C7_prev_day_fallback archC7 [] "u" dt0 "/img.jpg" (.ok (BASE_URL ++ "/prev")) 0
      (by decide) (by decide)).2.1⟩

/-! ### Claim theorems about `get_time_links` and the driver -/

/-- Claim C10: `get_time_links` returns a Python dict keyed by anchor
text: iteration order keeps each label at its first occurrence's
position among the page's time anchors, the stored href for a label is
the last anchor's href bearing it, and consequently on `docDup` the
walker follows the later duplicate's URL `/y` rather than the first
anchor's `/x`. -/
theorem C10_dict_semantics :
    (∀ doc : Doc, (get_time_links doc).map Prod.fst =
        firstKeys ((timeAnchors doc).map Anchor.text)) ∧
    (∀ (doc : Doc) (k : String),
        lookupStr (get_time_links doc) k = lastHref k (timeAnchors doc)) ∧
    get_next_time dt0 [] docDup = .ok (some (BASE_URL ++ "/y")) := by
  refine ⟨fun doc => keys_get_time_links doc, fun doc k => ?_, by decide⟩
  unfold get_time_links
  rw [lookup_insertAll]
  cases hl : lastHref k (timeAnchors doc) <;> rfl

/-- Helper for C9: with every image download succeeding, the driver
writes exactly one file per yielded pair. -/
theorem mainWrites_all_ok (store : ImageStore) (outDir : String)
    (hstore : ∀ u, (store u).isSome = true) : ∀ l : List (DateTime × String),
    mainWrites store outDir l =
      (l.map (fun p =>
        ⟨joinPath outDir (isoformat p.1 ++ ".jpg"), (store p.2).getD []⟩), none) := by
  intro l
  induction l with
  | nil => rfl
  | cons p t ih =>
    obtain ⟨dt, img⟩ := p
    cases hs : store img with
    | none => exact absurd (hstore img) (by simp [hs])
    | some bs =>
      have hd : download_image store img (joinPath outDir (isoformat dt ++ ".jpg")) =
          .ok ⟨joinPath outDir (isoformat dt ++ ".jpg"), bs⟩ := by
        unfold download_image
        rw [hs]
      simp only [mainWrites, hd, ih, hs]
      simp [hs]

/-- Claim C9: for every pair yielded by the walk, the driver performs
exactly one file write, at path `output_dir` joined with the
timestamp's ISO-8601 rendering followed by `.jpg`, containing the bytes
fetched from the pair's image URL; the trace contains nothing else (no
manifest or index), and applying a write replaces whatever the
filesystem previously held at that path. -/
theorem C9_driver_writes (archive : Archive) (store : ImageStore) (outDir : String)
    (fuel : Nat) (hstore : ∀ u, (store u).isSome = true) :
    (mainRun archive store outDir fuel).1 =
      (walkRun archive fuel [] START_URL).1.map
        (fun p => ⟨joinPath outDir (isoformat p.1 ++ ".jpg"), (store p.2).getD []⟩) ∧
    (mainRun archive store outDir fuel).2 = none ∧
    (∀ (fs : String → Option Bytes) (ws : List WriteEvent) (w : WriteEvent),
      applyWrites fs (ws ++ [w]) w.path = some w.data) := by
  refine ⟨?_, ?_, ?_⟩
  · unfold mainRun
    rw [mainWrites_all_ok store outDir hstore]
  · unfold mainRun
    rw [mainWrites_all_ok store outDir hstore]
  · intro fs ws w
    unfold applyWrites
    rw [List.foldl_append]
    simp

/-- Witness for C9 on a one-page archive with a constant image server. -/
theorem C9_driver_writes_witness :
    (∀ u : String, (storeC9 u).isSome = true) ∧
    (mainRun archC9 storeC9 "out" 3).1 =
      (walkRun archC9 3 [] START_URL).1.map
        (fun p => ⟨joinPath "out" (isoformat p.1 ++ ".jpg"), (storeC9 p.2).getD []⟩) ∧
    (mainRun archC9 storeC9 "out" 3).2 = none :=
  ⟨fun _ => rfl, (C9_driver_writes archC9 storeC9 "out" 3 (fun _ => rfl)).1,
    (C9_driver_writes archC9 storeC9 "out" 3 (fun _ => rfl)).2.1⟩
